import Mathlib

/-!
# Verification of a first-fit-decreasing perfect-hash builder

This development embeds the Python module `perfection.py` (functions
`choose_best_t`, `place_items_in_square`, `arrange_rows`, `find_first_fit`,
`check_columns_fit`, `trim_nones_from_right`, `hash_parameters` and the
`perfect_hash` closure built by `make_hash`) as executable Lean functions,
and proves or refutes the specified properties.

Modelling conventions:
* Python integers are `Int` (arbitrary precision); Python `%` on ints is
  `Int.emod`, Python `//` (and Python-2 `/` on ints) is `Int.fdiv`.
* A fallible Python computation (an expression that can raise
  `ValueError`, `IndexError`, `KeyError`, `TypeError`, `ZeroDivisionError`
  or `AssertionError`) is embedded in `Option`; a raised exception is
  `none`.  Exceptions abort the whole construction call, so mutations made
  before a raise are unobservable and are discarded with the `none`.
* Python list indexing wraps a negative index once by the length
  (`pyGet`); dictionary keys never wrap.
* `math.ceil(math.sqrt m)` is modelled as the exact integer ceiling square
  root (`ceilSqrt`); the IEEE-754 rounding of `math.sqrt`, visible only
  for keys around `2^52` and beyond, is idealised away.
* The per-row binary heaps built with `heapq.heappush` are modelled
  observationally: such a heap is only ever a valid binary heap, and the
  program observes it only through its root (`row[0]`, the minimum), its
  multiset of elements and its length, all of which the sorted-list
  representation `heappushRow` reproduces, so a row is kept as a list
  sorted by the heap comparison key.
* The outer row queue is NOT always a valid heap (the source filters out
  the empty rows after `heapq.heapify`), so its layout is observable and
  the CPython `heapq` routines `_siftdown`, `_siftup`, `heapify` and
  `heappop` are embedded step for step (`heapSiftdown`, `heapSiftup`,
  `heapify`, `heappop`).  The `<` those routines apply to the
  `(t - size, y, row)` tuples is `entryLt`: tuple comparison decides on
  `t - size` and then on `y`, and since the `y` components of distinct
  entries differ it never reaches the row component.
-/

namespace Perfection

/-- Python-style list read `xs[i]`: a negative index within range wraps by
the length; out of range raises `IndexError` (here `none`). -/
def pyGet {α : Type} (xs : List α) (i : Int) : Option α :=
  if 0 ≤ i then xs[i.toNat]?
  else if -(xs.length : Int) ≤ i then xs[(i + xs.length).toNat]?
  else none

/-- The comparison `(x, item) < (x2, item2)` used by the per-row heaps
(Python tuple comparison, lexicographic). -/
def pairLt (p q : Int × Int) : Bool :=
  decide (p.1 < q.1 ∨ (p.1 = q.1 ∧ p.2 < q.2))

/-- The call `heapq.heappush` into a per-row heap, modelled on the sorted-list
representation of the heap: insert keeping the list sorted by `pairLt`. -/
def heappushRow (row : List (Int × Int)) (p : Int × Int) : List (Int × Int) :=
  match row with
  | [] => [p]
  | q :: rest => if pairLt p q then p :: q :: rest else q :: heappushRow rest p

/-- Resolution of the Python list index `rows[item // t]` for a `rows`
list of length `t`: an index in `[-t, t)` resolves (wrapping a negative
one), anything else raises `IndexError`.  On `[-t, t)` the wrapped index
equals `(item // t) % t`. -/
def rowOf (t : Nat) (item : Int) : Option Nat :=
  let y := item.fdiv t
  if -(t : Int) ≤ y ∧ y < t then some ((y.emod t).toNat) else none

/-- One entry of the row priority queue: `(t - |row|, y, row)` as built by
`place_items_in_square`. -/
structure RowEntry where
  invLen : Int
  y : Nat
  row : List (Int × Int)
deriving DecidableEq, Repr

/-- The loop body of `place_items_in_square`: compute `x = item % t`,
`y = item // t` and push `(x, item)` onto row `y` (IndexError if `y` is
out of the list range). -/
def pushToRows (t : Nat) (rows : List (List (Int × Int))) (item : Int) :
    Option (List (List (Int × Int))) :=
  match rowOf t item with
  | none => none
  | some y => some (rows.set y (heappushRow (rows.getD y []) (item.emod t, item)))

/-- The `for item in items` loop of `place_items_in_square`. -/
def buildRows (t : Nat) : List Int → List (List (Int × Int)) →
    Option (List (List (Int × Int)))
  | [], rows => some rows
  | item :: rest, rows =>
    match pushToRows t rows item with
    | none => none
    | some rows2 => buildRows t rest rows2

/-- The heap comparison key of a queue entry; the third tuple component
(the row itself) never takes part in a comparison because the `(invLen,
y)` keys of distinct entries are distinct (`y` is). -/
def rowKey (e : RowEntry) : Int × Nat := (e.invLen, e.y)

/-- Lexicographic order on heap keys. -/
def keyLt (a b : Int × Nat) : Bool :=
  decide (a.1 < b.1 ∨ (a.1 = b.1 ∧ a.2 < b.2))

/-- The Python `<` applied by the `heapq` routines to the queue entries:
lexicographic tuple comparison on `(t - size, y, row)`, which decides on
`(t - size, y)` and never reaches the rows because the `y` components of
distinct entries differ. -/
def entryLt (a b : RowEntry) : Bool := keyLt (rowKey a) (rowKey b)

/-- The loop of CPython `heapq._siftdown(heap, startpos, pos)`: bubble
`newitem` from `pos` toward the root while it is smaller than its parent,
then store it.  The first argument only bounds the recursion; the
position strictly decreases on every step, so fuel `pos` is enough. -/
def heapSiftdownLoop {α : Type} (lt : α → α → Bool) (startpos : Nat)
    (newitem : α) : Nat → Nat → List α → List α
  | 0, pos, heap => heap.set pos newitem
  | Nat.succ fuel, pos, heap =>
    if startpos < pos then
      let parentpos := (pos - 1) / 2
      match heap[parentpos]? with
      | none => heap.set pos newitem
      | some parent =>
        if lt newitem parent then
          heapSiftdownLoop lt startpos newitem fuel parentpos
            (heap.set pos parent)
        else heap.set pos newitem
    else heap.set pos newitem

/-- CPython `heapq._siftdown(heap, startpos, pos)`. -/
def heapSiftdown {α : Type} (lt : α → α → Bool) (heap : List α)
    (startpos pos : Nat) : List α :=
  match heap[pos]? with
  | none => heap
  | some newitem => heapSiftdownLoop lt startpos newitem pos pos heap

/-- The child selection of CPython `heapq._siftup`: starting from the left
child position, move to the right sibling when it exists below `endpos`
and the left child is not smaller.  The loop only reads `heap[childpos]`
at positions below `endpos = len(heap)`, so the out-of-range `match` arm
is never taken on the source's calls. -/
def heapChildSel {α : Type} (lt : α → α → Bool) (endpos childpos : Nat)
    (heap : List α) : Nat :=
  if childpos + 1 < endpos then
    match heap[childpos]?, heap[childpos + 1]? with
    | some cl, some cr => if lt cl cr then childpos else childpos + 1
    | _, _ => childpos
  else childpos

/-- The child-descent loop of CPython `heapq._siftup(heap, pos)`: move the
smaller child up into `pos` until a childless position is reached; returns
the final list and position.  The position at least doubles each step, so
fuel `endpos` is enough. -/
def heapSiftupGo {α : Type} (lt : α → α → Bool) (endpos : Nat) :
    Nat → Nat → List α → List α × Nat
  | 0, pos, heap => (heap, pos)
  | Nat.succ fuel, pos, heap =>
    if 2 * pos + 1 < endpos then
      let cp := heapChildSel lt endpos (2 * pos + 1) heap
      match heap[cp]? with
      | none => (heap, pos)
      | some cv => heapSiftupGo lt endpos fuel cp (heap.set pos cv)
    else (heap, pos)

/-- CPython `heapq._siftup(heap, pos)`: save `heap[pos]`, descend moving
the smaller child up, place the saved item at the vacated position and
sift it back down toward `pos`. -/
def heapSiftup {α : Type} (lt : α → α → Bool) (heap : List α)
    (pos : Nat) : List α :=
  match heap[pos]? with
  | none => heap
  | some newitem =>
    let r := heapSiftupGo lt heap.length heap.length pos heap
    heapSiftdown lt (r.1.set r.2 newitem) pos r.2

/-- CPython `heapq.heapify(x)`: sift up at each of the positions
`n / 2 - 1, ..., 1, 0` in turn. -/
def heapify {α : Type} (lt : α → α → Bool) (heap : List α) : List α :=
  (List.range (heap.length / 2)).reverse.foldl
    (fun h i => heapSiftup lt h i) heap

/-- CPython `heapq.heappop(heap)`: pop the last element; if the list is
now empty return it, otherwise overwrite the root with it, sift up at the
root and return the old root.  Popping an empty heap raises
`IndexError`. -/
def heappop {α : Type} (lt : α → α → Bool) (heap : List α) :
    Option (α × List α) :=
  match heap.getLast? with
  | none => none
  | some lastelt =>
    match heap.dropLast with
    | [] => some (lastelt, [])
    | h0 :: tl => some (h0, heapSiftup lt ((h0 :: tl).set 0 lastelt) 0)

/-- The function `place_items_in_square(items, t)`: group the items into
the `t` grid rows, build the `(t - |row|, y, row)` entry list over ALL `t`
rows in ascending `y`, `heapq.heapify` it, and only then drop the entries
with empty rows (the comprehension keeps the remaining entries in their
heapified positions, so the returned list need not be a valid heap).  The
source keeps the running `t - |row|` count in each tuple and asserts at
the end that it equals `t - len(row)`; that assertion always holds, so the
count is computed directly here. -/
def place_items_in_square (items : List Int) (t : Nat) : Option (List RowEntry) :=
  match buildRows t items (List.replicate t []) with
  | none => none
  | some rows =>
    let entries := (List.range t).map (fun y =>
      (⟨(t : Int) - (rows.getD y []).length, y, rows.getD y []⟩ : RowEntry))
    some ((heapify entryLt entries).filter (fun e => !e.row.isEmpty))

/-- The mutable state of `arrange_rows`: the `unoccupied_columns` ordered
dict (its key list, in insertion order), the working `result` vector and
the `displacements` vector. -/
structure ArrangeState where
  free : List Int
  result : List (Option Int)
  displacements : List (Option Int)
deriving DecidableEq

/-- The check `check_columns_fit(unoccupied_columns, row, offset, row_length)`:
every item of the row must land on a still-free column at
`(x + offset) % row_length`. -/
def check_columns_fit (free : List Int) (row : List (Int × Int))
    (offset : Int) (rowLength : Int) : Bool :=
  row.all (fun p => decide ((p.1 + offset).emod rowLength ∈ free))

/-- The candidate loop of `find_first_fit`: iterate over the (still full)
free-column list `cs`, and return the first offset `c - row[0].x` that
passes `check_columns_fit` against `free`.  An empty `row` raises
`IndexError` at `row[0]` (only reached when a candidate exists); an
exhausted loop raises `ValueError`. -/
def find_fit_from (free : List Int) (row : List (Int × Int)) (rowLength : Int) :
    List Int → Option Int
  | [] => none
  | c :: cs =>
    match row.head? with
    | none => none
    | some p =>
      let offset := c - p.1
      if check_columns_fit free row offset rowLength then some offset
      else find_fit_from free row rowLength cs

/-- The search `find_first_fit(unoccupied_columns, row, row_length)`. -/
def find_first_fit (free : List Int) (row : List (Int × Int))
    (rowLength : Int) : Option Int :=
  find_fit_from free row rowLength free

/-- One iteration of the placement loop of `arrange_rows`:
`result[x + offset] = item; del unoccupied_columns[x + offset]`.
The list write wraps a negative index (hence the `emod`); the dict
delete raises `KeyError` unless the exact (unwrapped) index is a free
column.  Either failure aborts the construction call. -/
def placeItem (t2 : Nat) (d : Int) (st : ArrangeState) (p : Int × Int) :
    Option ArrangeState :=
  let ax := p.1 + d
  if -(t2 : Int) ≤ ax ∧ ax < (t2 : Int) then
    if ax ∈ st.free then
      some ⟨st.free.erase ax, st.result.set (ax.emod t2).toNat (some p.2),
            st.displacements⟩
    else none
  else none

/-- The `for x, item in row` placement loop of `arrange_rows`. -/
def placeRow (t2 : Nat) (d : Int) : List (Int × Int) → ArrangeState →
    Option ArrangeState
  | [], st => some st
  | p :: rest, st =>
    match placeItem t2 d st p with
    | none => none
    | some st2 => placeRow t2 d rest st2

/-- The `while row_queue` loop of `arrange_rows`.  The fuel argument is
always called with at least the queue length, so the `0` case with a
non-empty queue is never reached on the call paths used here. -/
def arrange_loop (t : Nat) : Nat → List RowEntry → ArrangeState →
    Option ArrangeState
  | _, [], st => some st
  | 0, _ :: _, _ => none
  | Nat.succ fuel, e0 :: rest0, st =>
    match heappop entryLt (e0 :: rest0) with
    | none => none
    | some (e, rest) =>
      match find_first_fit st.free e.row (t * t) with
      | none => none
      | some d =>
        if e.y < st.displacements.length then
          match placeRow (t * t) d e.row
              ⟨st.free, st.result, st.displacements.set e.y (some d)⟩ with
          | none => none
          | some st2 => arrange_loop t fuel rest st2
        else none

/-- The loop of `trim_nones_from_right(xs)`: `i` is the reversed index of
the first non-`None` element, or, when the loop falls through without
`break`, the last loop value `len(xs) - 1`. -/
def trimIdx {α : Type} (xs : List (Option α)) : Nat :=
  match xs.reverse.findIdx? (fun o => o.isSome) with
  | some j => j
  | none => xs.length - 1

/-- The function `trim_nones_from_right(xs)` returns `xs[:-i]`; on an empty list the
loop variable `i` is unbound, a `NameError`.  Note `xs[:-0]` is the
*empty* list: when the last element is not `None` the function returns
`[]`, not `xs`.  The slice `xs[:-i]` for `i > 0` is `take (len - i)`. -/
def trim_nones_from_right {α : Type} (xs : List (Option α)) :
    Option (List (Option α)) :=
  match xs with
  | [] => none
  | _ :: _ =>
    if trimIdx xs = 0 then some []
    else some (xs.take (xs.length - trimIdx xs))

/-- The initial `arrange_rows` state: `unoccupied_columns` holding
`0 .. t*t - 1` in ascending (insertion) order, `result = [None] * t**2`,
`displacements = [None] * t`. -/
def initState (t : Nat) : ArrangeState :=
  ⟨(List.range (t * t)).map Int.ofNat,
   List.replicate (t * t) none,
   List.replicate t none⟩

/-- The packer `arrange_rows(row_queue, t)`. -/
def arrange_rows (q : List RowEntry) (t : Nat) :
    Option (List (Option Int) × List (Option Int)) :=
  match arrange_loop t q.length q (initState t) with
  | none => none
  | some st =>
    match trim_nones_from_right st.result with
    | none => none
    | some trimmed => some (trimmed, st.displacements)

/-- Search loop for the integer ceiling square root: the first `acc` (the
search counts up from the initial accumulator) whose square reaches `m`. -/
def sqrtSearch (m : Nat) : Nat → Nat → Nat
  | 0, acc => acc
  | Nat.succ fuel, acc => if m ≤ acc * acc then acc else sqrtSearch m fuel (acc + 1)

/-- Exact integer ceiling square root: the least `n` with `m ≤ n * n`.
Models `int(math.ceil(math.sqrt m))` with exact arithmetic. -/
def ceilSqrt (m : Nat) : Nat := sqrtSearch m (m + 1) 0

/-- Python `max` over a list of ints (`ValueError`, i.e. `none`, when
empty). -/
def listMax : List Int → Option Int
  | [] => none
  | x :: xs => some (xs.foldl max x)

/-- Python `min` over a list of ints (`ValueError` when empty). -/
def listMin : List Int → Option Int
  | [] => none
  | x :: xs => some (xs.foldl min x)

/-- The chooser `choose_best_t(items)`: `math.sqrt` raises on an empty `max` argument
or a negative maximum; otherwise the ceiling square root of the maximum,
bumped to `len(items)` when its square is smaller than that. -/
def choose_best_t (items : List Int) : Option Nat :=
  match listMax items with
  | none => none
  | some m =>
    if m < 0 then none
    else
      let ma := ceilSqrt m.toNat
      if ma * ma < items.length then some items.length else some ma

/-- Python dict assignment `m[k] = v`: replace the binding in place, or
append a fresh one. -/
def assocSet {K : Type} : List (Int × K) → Int → K → List (Int × K)
  | [], k, v => [(k, v)]
  | (k2, v2) :: rest, k, v =>
    if k2 = k then (k, v) :: rest else (k2, v2) :: assocSet rest k v

/-- Python dict lookup `m[k]` as an `Option` (`KeyError` is `none`). -/
def assocGet {K : Type} : List (Int × K) → Int → Option K
  | [], _ => none
  | (k2, v2) :: rest, k => if k2 = k then some v2 else assocGet rest k

/-- The dict comprehension `{to_int(original): original for original in
keys}`: later keys silently overwrite earlier ones. -/
def keyToOriginal {K : Type} (to_int : K → Int) (keys : List K) : List (Int × K) :=
  keys.foldl (fun m k => assocSet m (to_int k) k) []

/-- The final comprehension of `hash_parameters`: translate each internal
slot value back through `key_to_original[item - offset]` (a missing key
would raise `KeyError`). -/
def translateSlots {K : Type} (m : List (Int × K)) (offset : Int) :
    List (Option Int) → Option (List (Option K))
  | [] => some []
  | none :: rest => (translateSlots m offset rest).map (fun l => none :: l)
  | some it :: rest =>
    match assocGet m (it - offset) with
    | none => none
    | some k => (translateSlots m offset rest).map (fun l => some k :: l)

/-- The `HashInfo` named tuple (minus the `to_int` field, which is a
function and is instead passed explicitly to `perfect_hash`; `make_hash`
feeds the construction-time `to_int` back in). -/
structure HashInfo (K : Type) where
  t : Nat
  slots : List (Option K)
  r : List (Option Int)
  offset : Int
deriving DecidableEq, Repr

/-- The builder `hash_parameters(keys, minimize, to_int)`.  When `minimize` is false
the source never evaluates `min(items)`, but `min` and `max` fail on
exactly the same (empty) input, so evaluating `listMin` first is
observationally identical.  The `if` after `choose_best_t` is the
source's `assert t * t >= max(items) and t * t >= len(items)`. -/
def hash_parameters {K : Type} (to_int : K → Int)
    (keys : List K) (minimize : Bool) : Option (HashInfo K) :=
  let m := keyToOriginal to_int keys
  let rawItems := m.map Prod.fst
  match listMin rawItems with
  | none => none
  | some mn =>
    let offset : Int := if minimize then 0 - mn else 0
    let items := rawItems.map (fun it => it + offset)
    match choose_best_t items with
    | none => none
    | some t =>
      match listMax items with
      | none => none
      | some mx =>
        if mx ≤ ((t * t : Nat) : Int) ∧ (items.length : Int) ≤ ((t * t : Nat) : Int) then
          match place_items_in_square items t with
          | none => none
          | some q =>
            match arrange_rows q t with
            | none => none
            | some (finalRow, r) =>
              match translateSlots m offset finalRow with
              | none => none
              | some slots => some ⟨t, slots, r, offset⟩
        else none

/-- The `perfect_hash` closure produced by `make_hash`: `val = to_int(x) +
offset; return val % t + r[val / t]`.  `% 0` raises
`ZeroDivisionError`; `r[y]` wraps a negative index and raises
`IndexError` out of `[-t, t)`; adding the `None` sentinel raises
`TypeError`.  All are `none`. -/
def perfect_hash {K : Type} (to_int : K → Int)
    (info : HashInfo K) (x : K) : Option Int :=
  if info.t = 0 then none
  else
    let val := to_int x + info.offset
    match pyGet info.r (val.fdiv info.t) with
    | some (some ry) => some (val.emod info.t + ry)
    | _ => none

/-- The sequence of queue entries in the order the packing loop pops
them. -/
def popSeq : Nat → List RowEntry → List RowEntry
  | 0, _ => []
  | Nat.succ fuel, q =>
    match heappop entryLt q with
    | none => []
    | some (e, rest) => e :: popSeq fuel rest

/-! ## Helper lemmas -/

theorem foldl_max_le (xs : List Int) :
    ∀ a x : Int, (x = a ∨ x ∈ xs) → x ≤ xs.foldl max a := by
  induction xs with
  | nil => intro a x h; simp at h; simp [h]
  | cons b xs ih =>
    intro a x h
    rw [List.foldl_cons]
    have hinit : max a b ≤ xs.foldl max (max a b) :=
      ih (max a b) (max a b) (Or.inl rfl)
    rcases h with h | h
    · exact le_trans (le_trans (by simp [h]) (le_max_left a b)) hinit
    · rcases List.mem_cons.mp h with h | h
      · exact le_trans (le_trans (by simp [h]) (le_max_right a b)) hinit
      · exact ih (max a b) x (Or.inr h)

theorem foldl_max_cases (xs : List Int) (a : Int) :
    xs.foldl max a = a ∨ xs.foldl max a ∈ xs := by
  induction xs generalizing a with
  | nil => simp
  | cons b xs ih =>
    rw [List.foldl_cons]
    rcases ih (max a b) with h | h
    · by_cases hab : a ≤ b
      · exact Or.inr (by rw [h, max_eq_right hab]; exact List.mem_cons_self b xs)
      · exact Or.inl (by rw [h, max_eq_left (le_of_not_le hab)])
    · exact Or.inr (List.mem_cons_of_mem _ h)

theorem listMax_spec (xs : List Int) (m : Int) (h : listMax xs = some m) :
    m ∈ xs ∧ ∀ x ∈ xs, x ≤ m := by
  match xs, h with
  | x :: rest, h =>
    simp only [listMax, Option.some.injEq] at h
    subst h
    constructor
    · rcases foldl_max_cases rest x with h | h
      · rw [h]; exact List.mem_cons_self x rest
      · exact List.mem_cons_of_mem _ h
    · intro y hy
      rcases List.mem_cons.mp hy with hy | hy
      · exact foldl_max_le rest x y (Or.inl hy)
      · exact foldl_max_le rest x y (Or.inr hy)

theorem foldl_min_le (xs : List Int) :
    ∀ a x : Int, (x = a ∨ x ∈ xs) → xs.foldl min a ≤ x := by
  induction xs with
  | nil => intro a x h; simp at h; simp [h]
  | cons b xs ih =>
    intro a x h
    rw [List.foldl_cons]
    have hinit : xs.foldl min (min a b) ≤ min a b :=
      ih (min a b) (min a b) (Or.inl rfl)
    rcases h with h | h
    · exact le_trans hinit (le_trans (min_le_left a b) (by simp [h]))
    · rcases List.mem_cons.mp h with h | h
      · exact le_trans hinit (le_trans (min_le_right a b) (by simp [h]))
      · exact ih (min a b) x (Or.inr h)

theorem foldl_min_cases (xs : List Int) (a : Int) :
    xs.foldl min a = a ∨ xs.foldl min a ∈ xs := by
  induction xs generalizing a with
  | nil => simp
  | cons b xs ih =>
    rw [List.foldl_cons]
    rcases ih (min a b) with h | h
    · by_cases hab : b ≤ a
      · exact Or.inr (by rw [h, min_eq_right hab]; exact List.mem_cons_self b xs)
      · exact Or.inl (by rw [h, min_eq_left (le_of_not_le hab)])
    · exact Or.inr (List.mem_cons_of_mem _ h)

theorem listMin_spec (xs : List Int) (m : Int) (h : listMin xs = some m) :
    m ∈ xs ∧ ∀ x ∈ xs, m ≤ x := by
  match xs, h with
  | x :: rest, h =>
    simp only [listMin, Option.some.injEq] at h
    subst h
    constructor
    · rcases foldl_min_cases rest x with h | h
      · rw [h]; exact List.mem_cons_self x rest
      · exact List.mem_cons_of_mem _ h
    · intro y hy
      rcases List.mem_cons.mp hy with hy | hy
      · exact foldl_min_le rest x y (Or.inl hy)
      · exact foldl_min_le rest x y (Or.inr hy)

theorem listMax_isSome (xs : List Int) (hne : xs ≠ []) :
    ∃ m, listMax xs = some m := by
  match xs, hne with
  | x :: rest, _ => exact ⟨rest.foldl max x, rfl⟩

theorem listMin_isSome (xs : List Int) (hne : xs ≠ []) :
    ∃ m, listMin xs = some m := by
  match xs, hne with
  | x :: rest, _ => exact ⟨rest.foldl min x, rfl⟩

theorem sqrtSearch_reaches (m : Nat) :
    ∀ fuel acc, m ≤ (acc + fuel) * (acc + fuel) →
      m ≤ sqrtSearch m fuel acc * sqrtSearch m fuel acc := by
  intro fuel
  induction fuel with
  | zero => intro acc h; simpa [sqrtSearch] using h
  | succ fuel ih =>
    intro acc h
    unfold sqrtSearch
    split
    · assumption
    · refine ih (acc + 1) ?_
      have hsum : acc + 1 + fuel = acc + (fuel + 1) := by omega
      rw [hsum]; exact h

theorem sqrtSearch_below (m : Nat) :
    ∀ fuel acc, (∀ j, j < acc → j * j < m) →
      ∀ j, j < sqrtSearch m fuel acc → j * j < m := by
  intro fuel
  induction fuel with
  | zero => intro acc h; simpa [sqrtSearch] using h
  | succ fuel ih =>
    intro acc h
    unfold sqrtSearch
    split
    · exact h
    · rename_i hlt
      refine ih (acc + 1) ?_
      intro j hj
      rcases Nat.lt_succ_iff_lt_or_eq.mp hj with hj | hj
      · exact h j hj
      · subst hj; omega

theorem ceilSqrt_le_sq (m : Nat) : m ≤ ceilSqrt m * ceilSqrt m := by
  refine sqrtSearch_reaches m (m + 1) 0 ?_
  nlinarith

theorem ceilSqrt_min (m s : Nat) (h : s < ceilSqrt m) : s * s < m := by
  exact sqrtSearch_below m (m + 1) 0 (by omega) s h

/-- C7 amended: for every non-empty set of shifted integer keys whose
maximum is non-negative the Table-Size Chooser succeeds and returns the
smallest `t` with `t*t ≥ max(items)`, except that it returns
`len(items)` when that minimal `t` squares below the key count.  The
claim's stronger totality assertion (`no failure modes`) is false:
`choose_best_t_fails_on_negative_keys` exhibits a reachable all-negative
key set on which `math.sqrt` raises `ValueError`.  (`math.sqrt` is
modelled as exact; its floating-point rounding can differ only for maxima
around `2^52`.) -/
theorem choose_best_t_spec (items : List Int) (mx : Int)
    (hmx : listMax items = some mx) (hnn : 0 ≤ mx) :
    ∃ t : Nat, choose_best_t items = some t ∧
      mx ≤ ((ceilSqrt mx.toNat * ceilSqrt mx.toNat : Nat) : Int) ∧
      (∀ s : Nat, mx ≤ ((s * s : Nat) : Int) → ceilSqrt mx.toNat ≤ s) ∧
      (ceilSqrt mx.toNat * ceilSqrt mx.toNat < items.length →
        t = items.length) ∧
      (¬ ceilSqrt mx.toNat * ceilSqrt mx.toNat < items.length →
        t = ceilSqrt mx.toNat) := by
  have hcast : ((mx.toNat : Int)) = mx := Int.toNat_of_nonneg hnn
  have hub : mx ≤ ((ceilSqrt mx.toNat * ceilSqrt mx.toNat : Nat) : Int) := by
    have := ceilSqrt_le_sq mx.toNat
    push_cast
    push_cast at hcast
    nlinarith [this]
  have hmin : ∀ s : Nat, mx ≤ ((s * s : Nat) : Int) → ceilSqrt mx.toNat ≤ s := by
    intro s hs
    by_contra hlt
    push_neg at hlt
    have := ceilSqrt_min mx.toNat s hlt
    have : ((s * s : Nat) : Int) < (mx.toNat : Int) := by exact_mod_cast this
    omega
  have hch : choose_best_t items =
      (if ceilSqrt mx.toNat * ceilSqrt mx.toNat < items.length
       then some items.length else some (ceilSqrt mx.toNat)) := by
    unfold choose_best_t
    rw [hmx]
    dsimp only
    rw [if_neg (not_lt.mpr hnn)]
  by_cases hlen : ceilSqrt mx.toNat * ceilSqrt mx.toNat < items.length
  · exact ⟨items.length, by rw [hch, if_pos hlen], hub, hmin,
      fun _ => rfl, fun hc => absurd hlen hc⟩
  · exact ⟨ceilSqrt mx.toNat, by rw [hch, if_neg hlen], hub, hmin,
      fun hc => absurd hc hlen, fun _ => rfl⟩

/-- Witness for `choose_best_t_spec` at the doctest key set `{1, 5, 7}`:
the maximum is `7`, the minimal side is `3`, and `t = 3` is returned. -/
theorem choose_best_t_spec_witness :
    (listMax [(1 : Int), 5, 7] = some 7 ∧ (0 : Int) ≤ 7) ∧
    (∃ t : Nat, choose_best_t [(1 : Int), 5, 7] = some t ∧
      (7 : Int) ≤ ((ceilSqrt (7 : Int).toNat * ceilSqrt (7 : Int).toNat : Nat) : Int) ∧
      (∀ s : Nat, (7 : Int) ≤ ((s * s : Nat) : Int) → ceilSqrt (7 : Int).toNat ≤ s) ∧
      (ceilSqrt (7 : Int).toNat * ceilSqrt (7 : Int).toNat < [(1 : Int), 5, 7].length →
        t = [(1 : Int), 5, 7].length) ∧
      (¬ ceilSqrt (7 : Int).toNat * ceilSqrt (7 : Int).toNat < [(1 : Int), 5, 7].length →
        t = ceilSqrt (7 : Int).toNat)) :=
  ⟨⟨by decide, by decide⟩, choose_best_t_spec [1, 5, 7] 7 (by decide) (by decide)⟩

/-- C7 fails on the code as stated: the Table-Size Chooser is not a total
function of every non-empty key set.  With `minimize=False` the shifted
keys keep their signs, so the reachable all-negative key set `{-5, -2}`
has maximum `-2`, `math.sqrt(-2)` raises `ValueError`, and the whole
construction fails. -/
theorem choose_best_t_fails_on_negative_keys :
    ([(-5 : Int), -2] ≠ [] ∧ listMax [(-5 : Int), -2] = some (-2)) ∧
    choose_best_t [(-5 : Int), -2] = none ∧
    hash_parameters (fun k : Int => k) [(-5 : Int), -2] false = none := by
  decide

/-! ## Claim theorems: concrete failures (C1, C3, C4, C5, C8, C9) -/

/-- C1 fails on the code: building from `[0, 1, 2, 3]` succeeds, the
packed working vector is fully dense, the trimmer then returns the empty
slot vector, and `slots[evaluate(info, 0)]` is an out-of-range access
instead of the key `0`. -/
theorem roundtrip_fails_on_dense_build :
    hash_parameters (fun k : Int => k) [0, 1, 2, 3] true =
      some ⟨2, [], [some 0, some 2], 0⟩ ∧
    (hash_parameters (fun k : Int => k) [0, 1, 2, 3] true).bind
      (fun info => perfect_hash (fun k : Int => k) info 0) = some 0 ∧
    (hash_parameters (fun k : Int => k) [0, 1, 2, 3] true).map
      (fun info => pyGet info.slots 0) = some none := by decide

/-- C3 fails on the code: a packed vector with *no* trailing unassigned
slot is emptied entirely by `trim_nones_from_right` (`xs[:-0] == []`),
contradicting the function's own docstring; the docstring's own example
(with a genuine trailing run) is handled as documented. -/
theorem trim_drops_fully_assigned_vector :
    trim_nones_from_right [some (1 : Int), some 2, some 3] = some [] ∧
    trim_nones_from_right
        [some (1 : Int), some 2, none, some 4, none, some 5, none, none] =
      some [some 1, some 2, none, some 4, none, some 5] := by decide

/-- C4 fails on the code: for the shifted key set `{4}` the chooser picks
`t = 2` (and the chooser invariant `t*t ≥ max` and `t*t ≥ |keys|` holds),
but key `4` lands in row `y = 4 // 2 = 2 ∉ [0, 2)`, so the Grid Placer
raises `IndexError` at `rows[y]`; `hash_parameters([0, 4])` crashes the
same way. -/
theorem grid_placer_fails_on_square_maximum :
    choose_best_t [(4 : Int)] = some 2 ∧
    (2 * 2 ≥ 4 ∧ 2 * 2 ≥ [(4 : Int)].length) ∧
    rowOf 2 4 = none ∧
    place_items_in_square [(4 : Int)] 2 = none ∧
    hash_parameters (fun k : Int => k) [0, 4] true = none := by decide

/-- C8 fails on the code: a non-injective `to_int` (here constantly `0`
on the two distinct keys `0` and `1`) does not raise anything —
construction succeeds on the silently collapsed key set. -/
theorem nonunique_to_int_does_not_fail :
    ((fun _ : Int => (0 : Int)) 0 = (fun _ : Int => (0 : Int)) 1 ∧
      (0 : Int) ≠ 1) ∧
    (hash_parameters (fun _ : Int => (0 : Int)) [0, 1] true).isSome = true := by
  decide

/-- C8 amended: the construction does fail on an empty key sequence (the
`min`/`max` of the empty integer-key set raises `ValueError`), for every
adapter and either `minimize` flag, with no partial result. -/
theorem empty_keys_always_fail (K : Type) (to_int : K → Int)
    (minimize : Bool) :
    hash_parameters to_int ([] : List K) minimize = none := rfl

set_option maxRecDepth 4000

/-- C5 fails on the code: the Row Packer does not always drain rows in
order of strictly decreasing size with ties by ascending `y`.  The 35-key
set below is reachable (`minimize=True`, `t = 8` chosen by the chooser):
filtering out the empty row `y = 4` after `heapq.heapify` leaves a list
violating the heap invariant, and `heappop` then emits the size-5 row
`y = 6` before the size-6 row `y = 5` — pop order
`(y, size) = (0,8), (2,7), (6,5), (5,6), (1,4), (3,3), (7,2)`, so the
claim's ordering predicate is false of the popped sequence, and the final
displacement vector records the resulting misordered placements. -/
theorem packer_pops_out_of_order :
    choose_best_t [(0 : Int), 1, 2, 3, 4, 5, 6, 7, 8, 9, 10, 11, 16, 17, 18,
        19, 20, 21, 22, 24, 25, 26, 40, 41, 42, 43, 44, 45, 50, 51, 52, 53,
        54, 56, 57] = some 8 ∧
    (place_items_in_square [(0 : Int), 1, 2, 3, 4, 5, 6, 7, 8, 9, 10, 11, 16,
        17, 18, 19, 20, 21, 22, 24, 25, 26, 40, 41, 42, 43, 44, 45, 50, 51,
        52, 53, 54, 56, 57] 8).map (fun q =>
      (popSeq q.length q).map (fun e => (e.y, e.row.length))) =
      some [(0, 8), (2, 7), (6, 5), (5, 6), (1, 4), (3, 3), (7, 2)] ∧
    (place_items_in_square [(0 : Int), 1, 2, 3, 4, 5, 6, 7, 8, 9, 10, 11, 16,
        17, 18, 19, 20, 21, 22, 24, 25, 26, 40, 41, 42, 43, 44, 45, 50, 51,
        52, 53, 54, 56, 57] 8).map (fun q =>
      decide (List.Pairwise (fun a b => b.row.length < a.row.length ∨
        (b.row.length = a.row.length ∧ a.y < b.y)) (popSeq q.length q))) =
      some false ∧
    (hash_parameters (fun k : Int => k) [(0 : Int), 1, 2, 3, 4, 5, 6, 7, 8, 9,
        10, 11, 16, 17, 18, 19, 20, 21, 22, 24, 25, 26, 40, 41, 42, 43, 44,
        45, 50, 51, 52, 53, 54, 56, 57] true).map (fun info => info.r) =
      some [some 0, some 26, some 8, some 30, none, some 20, some 13,
        some 33] := by decide

/-! ## The heap permutation layer (towards the master lemmas) -/

theorem placeItem_spec (t2 : Nat) (d : Int) (st st2 : ArrangeState)
    (p : Int × Int) (h : placeItem t2 d st p = some st2) :
    (p.1 + d) ∈ st.free ∧ -(t2 : Int) ≤ p.1 + d ∧ p.1 + d < (t2 : Int) ∧
    st2.free = st.free.erase (p.1 + d) ∧
    st2.result = st.result.set ((p.1 + d).emod t2).toNat (some p.2) ∧
    st2.displacements = st.displacements := by
  unfold placeItem at h
  dsimp only at h
  split at h
  · rename_i hrange
    split at h
    · rename_i hmem
      rw [Option.some.injEq] at h
      subst h
      exact ⟨hmem, hrange.1, hrange.2, rfl, rfl, rfl⟩
    · cases h
  · cases h

/-- Full specification of the placement loop for one row: under the
free-column invariants, a successful placement keeps the vector length
and the displacements, removes exactly the placed columns from the free
list, leaves every other cell of the working vector untouched, and stores
each item of the row at its (in-range) column `x + d`. -/
theorem placeRow_spec (t2 : Nat) (d : Int) :
    ∀ (row : List (Int × Int)) (st st2 : ArrangeState),
      placeRow t2 d row st = some st2 →
      st.free.Nodup →
      (∀ c ∈ st.free, 0 ≤ c ∧ c < (t2 : Int)) →
      st.result.length = t2 →
      st2.result.length = t2 ∧
      st2.displacements = st.displacements ∧
      st2.free.Nodup ∧
      (∀ c ∈ st2.free, 0 ≤ c ∧ c < (t2 : Int)) ∧
      st2.free = st.free.filter (fun c => decide (∀ p ∈ row, c ≠ p.1 + d)) ∧
      (∀ j : Nat, (j : Int) ∉ row.map (fun p => p.1 + d) →
        st2.result[j]? = st.result[j]?) ∧
      (∀ p ∈ row, (p.1 + d) ∈ st.free ∧ 0 ≤ p.1 + d ∧ p.1 + d < (t2 : Int) ∧
        st2.result[(p.1 + d).toNat]? = some (some p.2)) := by
  intro row
  induction row with
  | nil =>
    intro st st2 h hnd hbd hlen
    have h2 : some st = some st2 := h
    rw [Option.some.injEq] at h2
    subst h2
    refine ⟨hlen, rfl, hnd, hbd, ?_, fun j _ => rfl,
      fun p hp => absurd hp (List.not_mem_nil p)⟩
    have htrue : ∀ c ∈ st.free,
        (decide (∀ p ∈ ([] : List (Int × Int)), c ≠ p.1 + d)) = true := by
      intro c _
      simp
    exact (List.filter_eq_self.mpr htrue).symm
  | cons p0 rest ih =>
    intro st st2 h hnd hbd hlen
    have h2 : (match placeItem t2 d st p0 with
               | none => none
               | some st1 => placeRow t2 d rest st1) = some st2 := h
    cases hpi : placeItem t2 d st p0 with
    | none => rw [hpi] at h2; cases h2
    | some st1 =>
      rw [hpi] at h2
      dsimp only at h2
      obtain ⟨hmem, hlow, hhigh, hfree1, hres1, hdisp1⟩ :=
        placeItem_spec t2 d st st1 p0 hpi
      have hax0 : 0 ≤ p0.1 + d := (hbd _ hmem).1
      have hmod : (p0.1 + d).emod t2 = p0.1 + d :=
        Int.emod_eq_of_lt hax0 hhigh
      have hnd1 : st1.free.Nodup := by rw [hfree1]; exact hnd.erase _
      have hbd1 : ∀ c ∈ st1.free, 0 ≤ c ∧ c < (t2 : Int) := by
        intro c hc
        rw [hfree1] at hc
        exact hbd c (List.mem_of_mem_erase hc)
      have hlen1 : st1.result.length = t2 := by
        rw [hres1, List.length_set]; exact hlen
      obtain ⟨hL, hD, hN, hB, hF, hP, hI⟩ := ih st1 st2 h2 hnd1 hbd1 hlen1
      refine ⟨hL, hD.trans hdisp1, hN, hB, ?_, ?_, ?_⟩
      · rw [hF, hfree1, hnd.erase_eq_filter, List.filter_filter]
        refine List.filter_congr ?_
        intro c _
        by_cases h1 : c = p0.1 + d
        · have hbneq : (c != p0.1 + d) = false := by simp [h1]
          have hcons : ¬(∀ p ∈ p0 :: rest, c ≠ p.1 + d) := by
            intro hall
            exact (hall p0 (List.mem_cons_self p0 rest)) h1
          rw [hbneq, decide_eq_false hcons, Bool.and_false]
        · have hbneq : (c != p0.1 + d) = true := bne_iff_ne.mpr h1
          by_cases hrest : ∀ p ∈ rest, c ≠ p.1 + d
          · have hcons : ∀ p ∈ p0 :: rest, c ≠ p.1 + d :=
              List.forall_mem_cons.mpr ⟨h1, hrest⟩
            rw [hbneq, decide_eq_true hrest, decide_eq_true hcons,
              Bool.and_self]
          · have hcons : ¬(∀ p ∈ p0 :: rest, c ≠ p.1 + d) := by
              intro hall
              exact hrest (fun p hp => hall p (List.mem_cons_of_mem p0 hp))
            rw [decide_eq_false hrest, decide_eq_false hcons, Bool.false_and]
      · intro j hj
        rw [List.map_cons, List.mem_cons] at hj
        obtain ⟨hj1, hj2⟩ := not_or.mp hj
        have hstep : st1.result[j]? = st.result[j]? := by
          rw [hres1]
          refine List.getElem?_set_ne ?_
          rw [hmod]
          intro hcontra
          exact hj1 (by rw [← hcontra, Int.toNat_of_nonneg hax0])
        rw [hP j hj2, hstep]
      · intro p hp
        rcases List.mem_cons.mp hp with hp | hp
        · subst hp
          refine ⟨hmem, hax0, hhigh, ?_⟩
          have hnot : (((p.1 + d).toNat : Nat) : Int) ∉
              rest.map (fun q3 => q3.1 + d) := by
            rw [Int.toNat_of_nonneg hax0]
            intro hcon
            obtain ⟨q2, hq2, hqe⟩ := List.mem_map.mp hcon
            have hqfree := (hI q2 hq2).1
            rw [hfree1] at hqfree
            exact (hnd.mem_erase_iff.mp hqfree).1 hqe
          rw [hP _ hnot, hres1, hmod]
          refine List.getElem?_set_self ?_
          rw [hlen]
          omega
        · have h1 := hI p hp
          have hmem2 : (p.1 + d) ∈ st.free := by
            have hm := h1.1
            rw [hfree1] at hm
            exact List.mem_of_mem_erase hm
          exact ⟨hmem2, h1.2.1, h1.2.2.1, h1.2.2.2⟩

/-- C6: when the Row Packer successfully places a popped row with its
chosen displacement `d`, every item `(x, item)` of the row ends stored in
the working vector at index `(x + d) mod (t*t)`, and exactly the columns
`x + d` for `(x, item)` in the row are removed from the free-column
set. -/
theorem place_row_stores_and_occupies (t : Nat) (d : Int)
    (row : List (Int × Int)) (st st2 : ArrangeState)
    (hnd : st.free.Nodup)
    (hbd : ∀ c ∈ st.free, 0 ≤ c ∧ c < ((t * t : Nat) : Int))
    (hlen : st.result.length = t * t)
    (h : placeRow (t * t) d row st = some st2) :
    (∀ p ∈ row,
      st2.result[((p.1 + d).emod (t * t)).toNat]? = some (some p.2)) ∧
    st2.free = st.free.filter (fun c => decide (∀ p ∈ row, c ≠ p.1 + d)) := by
  obtain ⟨-, -, -, -, hF, -, hI⟩ :=
    placeRow_spec (t * t) d row st st2 h hnd hbd hlen
  refine ⟨?_, hF⟩
  intro p hp
  obtain ⟨-, h0, hlt, hcell⟩ := hI p hp
  have hlt2 : p.1 + d < (t : Int) * t := by push_cast at hlt; exact hlt
  have hmod : (p.1 + d).emod ((t : Int) * t) = p.1 + d :=
    Int.emod_eq_of_lt h0 hlt2
  rw [hmod]
  exact hcell

/-- Witness for `place_row_stores_and_occupies`: the two-item row
`[(0,0), (1,1)]` placed with displacement `0` into the fresh `t = 2`
state lands at cells `0` and `1` and removes exactly those columns. -/
theorem place_row_stores_and_occupies_witness :
    ((initState 2).free.Nodup ∧
      (∀ c ∈ (initState 2).free, 0 ≤ c ∧ c < ((2 * 2 : Nat) : Int)) ∧
      (initState 2).result.length = 2 * 2 ∧
      placeRow (2 * 2) 0 [((0 : Int), (0 : Int)), (1, 1)] (initState 2) =
        some ⟨[2, 3], [some 0, some 1, none, none], [none, none]⟩) ∧
    ((∀ p ∈ [((0 : Int), (0 : Int)), (1, 1)],
        (⟨[2, 3], [some 0, some 1, none, none],
            [none, none]⟩ : ArrangeState).result[((p.1 + 0).emod (2 * 2)).toNat]? =
          some (some p.2)) ∧
      (⟨[2, 3], [some 0, some 1, none, none],
          [none, none]⟩ : ArrangeState).free =
        (initState 2).free.filter
          (fun c => decide (∀ p ∈ [((0 : Int), (0 : Int)), (1, 1)],
            c ≠ p.1 + 0))) :=
  ⟨⟨by decide, by decide, by decide, by decide⟩,
    place_row_stores_and_occupies 2 0 [(0, 0), (1, 1)] (initState 2)
      ⟨[2, 3], [some 0, some 1, none, none], [none, none]⟩
      (by decide) (by decide) (by decide) (by decide)⟩


/-! ## Grid-placement membership and assembler plumbing (towards C2, C9, C10) -/

end Perfection
